import Mathlib

/-!
Shallow embedding of the WebRTC signaling server in `src/signaling.py`
(class `SignalingServer`), together with proofs settling the specification
claims about it.

The server keeps three registries:
  * `peers    : uid ↦ (websocket, remote address, status)` where the status
    field is Python `None` (idle), the string `'session'`, or a room id;
  * `sessions : uid ↦ uid` (the session pairing map);
  * `rooms    : room id ↦ set of member uids`.

Python dictionaries are embedded as association lists with
overwrite/delete implemented by filtering all entries with the given key,
which matches dictionary lookup semantics exactly.  Python `str.split`
with its whitespace default and `maxsplit` is embedded character by
character.  Network effects (sends, closes) are represented as explicit
action lists; `await` suspension points matter only where noted in
comments.  A Python exception that escapes `connection_handler` is
represented by a `crashed` flag: in `handler` (signaling.py lines
193-202) such an exception still triggers `remove_peer` in the `finally`
block, which the event-level semantics applies.
-/

namespace Watney

/-- Characters Python `str.split()` treats as whitespace (ASCII subset). -/
def pyWs (c : Char) : Bool :=
  c = ' ' || c = '\t' || c = '\n' || c = '\x0d' || c = '\x0b' || c = '\x0c'

/-- Token list of Python `s.split()` (no maxsplit), on the character list. -/
def pySplitAux : List Char → List Char → List String
  | [], [] => []
  | [], acc => [String.mk acc.reverse]
  | c :: cs, acc =>
    if pyWs c then
      match acc with
      | [] => pySplitAux cs []
      | _ => String.mk acc.reverse :: pySplitAux cs []
    else pySplitAux cs (c :: acc)

/-- Python `s.split()`: split on runs of whitespace, no empty tokens. -/
def pySplit (s : String) : List String :=
  pySplitAux s.toList []

/-- Drop leading whitespace from a character list. -/
def dropWs (cs : List Char) : List Char :=
  cs.dropWhile pyWs

/-- Python `s.split(maxsplit=1)`: at most two parts; the second part keeps
its trailing whitespace but not the separating whitespace. -/
def pySplit1 (s : String) : List String :=
  let cs := dropWs s.toList
  match cs with
  | [] => []
  | _ =>
    let tok := cs.takeWhile (fun c => !pyWs c)
    let rest := dropWs (cs.dropWhile (fun c => !pyWs c))
    match rest with
    | [] => [String.mk tok]
    | _ => [String.mk tok, String.mk rest]

/-- Python `s.split(maxsplit=2)`: at most three parts. -/
def pySplit2 (s : String) : List String :=
  let cs := dropWs s.toList
  match cs with
  | [] => []
  | _ =>
    let tok := cs.takeWhile (fun c => !pyWs c)
    let rest := dropWs (cs.dropWhile (fun c => !pyWs c))
    match rest with
    | [] => [String.mk tok]
    | _ =>
      let tok2 := rest.takeWhile (fun c => !pyWs c)
      let rest2 := dropWs (rest.dropWhile (fun c => !pyWs c))
      match rest2 with
      | [] => [String.mk tok, String.mk tok2]
      | _ => [String.mk tok, String.mk tok2, String.mk rest2]

/-- Python `repr` of a string, restricted to strings that contain no
quote, backslash, or non-printable character: for those, `repr s` is
`'s'`.  Every identifier appearing in the theorems below is in this
fragment. -/
def pyRepr (s : String) : String :=
  "'" ++ s ++ "'"

/-- Python `s.startswith(pre)`, computed on character lists so that it
reduces by kernel evaluation. -/
def pyStartsWith (s pre : String) : Bool :=
  s.toList.take pre.toList.length == pre.toList

/-- Association-list lookup, i.e. Python `d[k]` / `k in d`. -/
def alook {β : Type} (l : List (String × β)) (k : String) : Option β :=
  match l with
  | [] => none
  | (k', v) :: rest => if k' = k then some v else alook rest k

/-- Association-list overwrite, i.e. Python `d[k] = v`. -/
def aset {β : Type} (l : List (String × β)) (k : String) (v : β) :
    List (String × β) :=
  (k, v) :: l.filter (fun p => p.1 ≠ k)

/-- Association-list delete, i.e. Python `del d[k]`. -/
def adel {β : Type} (l : List (String × β)) (k : String) :
    List (String × β) :=
  l.filter (fun p => p.1 ≠ k)

/-- One registry entry: the Python list `[ws, raddr, status]` stored in
`self.peers[uid]` (signaling.py line 86).  The websocket and the remote
address are abstracted as numeric handles; the third field is `none` for
Python `None` (idle), `some "session"` while paired, or `some roomId`
while in a room. -/
structure Peer where
  ws : Nat
  raddr : Nat
  status : Option String
deriving DecidableEq

/-- The three shared registries of `SignalingServer.__init__`
(signaling.py lines 23-26). -/
structure ServerState where
  peers : List (String × Peer)
  sessions : List (String × String)
  rooms : List (String × List String)
deriving DecidableEq

/-- Network effects a handler performs: sending a text frame to the
connection of the named peer, closing a peer's connection, or closing
the current connection with an explicit close code. -/
inductive Act where
  | send (dst : String) (frame : String)
  | closeConn (who : String)
  | closeCode (code : Nat) (reason : String)
deriving DecidableEq

/-- Result of running a handler fragment: the new registry state, the
network actions performed in order, and whether a Python exception
escaped (crashing the connection's task). -/
structure StepOut where
  st : ServerState
  acts : List Act
  crashed : Bool
deriving DecidableEq

/-- Embeds `cleanup_session` (signaling.py lines 46-60): drop the
caller's session entry; if the recorded partner also has an entry, drop
it too and, if the partner is still registered, delete it from the
registry and close its connection. -/
def cleanup_session (st : ServerState) (uid : String) :
    ServerState × List Act :=
  match alook st.sessions uid with
  | none => (st, [])
  | some other_id =>
    let s1 := adel st.sessions uid
    match alook s1 other_id with
    | none => ({ st with sessions := s1 }, [])
    | some _ =>
      let s2 := adel s1 other_id
      match alook st.peers other_id with
      | none => ({ st with sessions := s2 }, [])
      | some _ =>
        ({ st with sessions := s2, peers := adel st.peers other_id },
         [Act.closeConn other_id])

/-- Send `frame` to every peer in `pids` in order, as the broadcast
loops at signaling.py lines 67-71 and 169-175 do; looking up a peer
absent from the registry is a Python `KeyError`, reported as a crash
after which no further send happens. -/
def bcast (peers : List (String × Peer)) (pids : List String)
    (frame : String) : List Act × Bool :=
  match pids with
  | [] => ([], false)
  | pid :: rest =>
    match alook peers pid with
    | none => ([], true)
    | some _ =>
      let r := bcast peers rest frame
      (Act.send pid frame :: r.1, r.2)

/-- State of the registries at the instant `cleanup_room` (signaling.py
lines 62-71) reaches its broadcast loop: the departing peer has been
removed from the member set (line 66), while its registry entry still
exists (`remove_peer` deletes it only at line 79, after `cleanup_room`
returns).  Every `await wsp.send` of the loop suspends at exactly this
registry state.  `none` models the `KeyError` of `self.rooms[room_id]`
at line 63; a non-member returns the unchanged state with no recipients
(lines 64-65). -/
def cleanup_room_enter (st : ServerState) (uid room_id : String) :
    Option (ServerState × List String) :=
  match alook st.rooms room_id with
  | none => none
  | some room_peers =>
    if uid ∈ room_peers then
      let remaining := room_peers.filter (fun p => p ≠ uid)
      some ({ st with rooms := aset st.rooms room_id remaining }, remaining)
    else some (st, [])

/-- Embeds `cleanup_room` (signaling.py lines 62-71). -/
def cleanup_room (st : ServerState) (uid room_id : String) : StepOut :=
  match cleanup_room_enter st uid room_id with
  | none => ⟨st, [], true⟩
  | some (st', remaining) =>
    let r := bcast st'.peers remaining ("ROOM_PEER_LEFT " ++ uid)
    ⟨st', r.1, r.2⟩

/-- Embeds `remove_peer` (signaling.py lines 73-81): session cleanup
first, then — when the peer is still registered — room cleanup when its
status is a truthy non-`'session'` string, then deletion from the
registry and closing its connection.  A crash inside `cleanup_room`
escapes before lines 79-80 run. -/
def remove_peer (st : ServerState) (uid : String) : StepOut :=
  let c := cleanup_session st uid
  match alook c.1.peers uid with
  | none => ⟨c.1, c.2, false⟩
  | some p =>
    let roomPart : StepOut :=
      match p.status with
      | some r =>
        if r = "session" ∨ r = "" then ⟨c.1, [], false⟩
        else cleanup_room c.1 uid r
      | none => ⟨c.1, [], false⟩
    if roomPart.crashed then
      ⟨roomPart.st, c.2 ++ roomPart.acts, true⟩
    else
      ⟨{ roomPart.st with peers := adel roomPart.st.peers uid },
       c.2 ++ roomPart.acts ++ [Act.closeConn uid], false⟩

/-- Reply text `'ERROR peer {!r} not found'` (signaling.py lines 108, 135). -/
def peerNotFoundMsg (x : String) : String :=
  "ERROR peer " ++ pyRepr x ++ " not found"

/-- Reply text `'ERROR peer {!r} busy'` (signaling.py line 138). -/
def peerBusyMsg (x : String) : String :=
  "ERROR peer " ++ pyRepr x ++ " busy"

/-- Reply text `'ERROR peer {!r} is not in the room'` (signaling.py line 113). -/
def peerNotInRoomMsg (x : String) : String :=
  "ERROR peer " ++ pyRepr x ++ " is not in the room"

/-- Reply text `'ERROR invalid room id {!r}'` (signaling.py line 155). -/
def invalidRoomMsg (r : String) : String :=
  "ERROR invalid room id " ++ pyRepr r

/-- Reply text of signaling.py line 126. -/
def alreadyInRoomMsg : String :=
  "ERROR invalid msg, already in room"

/-- Embeds the `SESSION` branch (signaling.py lines 131-148).  `p` is
the caller's registry entry and `peer_status` the local variable read at
line 92 — in `connection_handler` this branch runs only when that value
is `None`, so the busy test at line 137 re-examines the same value (see
the claim about the busy reply).  Mutations at lines 145-148 set both
statuses and both session-map directions with no suspension point
between them. -/
def handleSession (st : ServerState) (uid : String) (p : Peer)
    (peer_status : Option String) (msg : String) : StepOut :=
  match pySplit1 msg with
  | [_, callee_id] =>
    match alook st.peers callee_id with
    | none => ⟨st, [Act.send uid (peerNotFoundMsg callee_id)], false⟩
    | some callee =>
      if peer_status.isSome then
        ⟨st, [Act.send uid (peerBusyMsg callee_id)], false⟩
      else
        ⟨{ st with
             peers := aset (aset st.peers uid { p with status := some "session" })
               callee_id { callee with status := some "session" },
             sessions := aset (aset st.sessions uid callee_id) callee_id uid },
         [Act.send uid "SESSION_OK"], false⟩
  | _ => ⟨st, [], true⟩

/-- The commit part of a room join (signaling.py lines 164-175): the
`ROOM_OK` reply is computed from the member list as it is before the
joiner is added; only then is the joiner's status set and the joiner
added, and `ROOM_PEER_JOINED` is sent to exactly the previous members. -/
def roomJoinCommit (st : ServerState) (uid : String) (p : Peer)
    (room_id : String) (members : List String) : StepOut :=
  let okMsg := "ROOM_OK " ++ String.intercalate " " members
  let st1 := { st with
    peers := aset st.peers uid { p with status := some room_id },
    rooms := aset st.rooms room_id (uid :: members) }
  let r := bcast st1.peers members ("ROOM_PEER_JOINED " ++ uid)
  ⟨st1, Act.send uid okMsg :: r.1, r.2⟩

/-- Embeds the `ROOM` join branch (signaling.py lines 150-175),
including the room-id validation at line 154 (`room_id == 'session' or
room_id.split() != [room_id]`), the `AssertionError` at lines 158-160
when the joiner is already a member, and implicit room creation. -/
def handleRoomJoin (st : ServerState) (uid : String) (p : Peer)
    (msg : String) : StepOut :=
  match pySplit1 msg with
  | [_, room_id] =>
    if room_id = "session" ∨ pySplit room_id ≠ [room_id] then
      ⟨st, [Act.send uid (invalidRoomMsg room_id)], false⟩
    else
      match alook st.rooms room_id with
      | some members =>
        if uid ∈ members then ⟨st, [], true⟩
        else roomJoinCommit st uid p room_id members
      | none =>
        roomJoinCommit { st with rooms := aset st.rooms room_id [] } uid p
          room_id []
  | _ => ⟨st, [], true⟩

/-- Embeds the in-room command branch (signaling.py lines 103-127).
`room_id` is the Python local of the same name, which for a live
in-room connection equals the room in the peer's status field (both were
assigned together at line 167 and neither changes afterwards while the
entry exists).  The `ROOM_PEER_LIST` arm models line 120, which reads
the name `peer_id`: no such local or global exists in `signaling.py`, so
Python raises `NameError` before any reply is sent. -/
def handleRoomCmd (st : ServerState) (uid room_id : String)
    (msg : String) : StepOut :=
  if pyStartsWith msg "ROOM_PEER_MSG" then
    match pySplit2 msg with
    | [_, other_id, payload] =>
      match alook st.peers other_id with
      | none => ⟨st, [Act.send uid (peerNotFoundMsg other_id)], false⟩
      | some op =>
        if op.status ≠ some room_id then
          ⟨st, [Act.send uid (peerNotInRoomMsg other_id)], false⟩
        else
          ⟨st, [Act.send other_id ("ROOM_PEER_MSG " ++ uid ++ " " ++ payload)],
           false⟩
    | _ => ⟨st, [], true⟩
  else if msg = "ROOM_PEER_LIST" then
    ⟨st, [], true⟩
  else
    ⟨st, [Act.send uid alreadyInRoomMsg], false⟩

/-- Embeds the relay branch (signaling.py lines 96-101): the frame is
forwarded to `sessions[uid]` verbatim; a missing session entry or
partner registry entry is a `KeyError`, and a partner whose status is
not `'session'` fails the assertion at line 99. -/
def handleRelay (st : ServerState) (uid : String) (msg : String) : StepOut :=
  match alook st.sessions uid with
  | none => ⟨st, [], true⟩
  | some other_id =>
    match alook st.peers other_id with
    | none => ⟨st, [], true⟩
    | some op =>
      if op.status = some "session" then
        ⟨st, [Act.send other_id msg], false⟩
      else ⟨st, [], true⟩

/-- One iteration of the command loop of `connection_handler`
(signaling.py lines 90-177) for one received frame: re-read the peer's
status (line 92, `KeyError` if the entry is gone), then dispatch —
relay while in a session, room commands while the status is a truthy
non-`'session'` string, the `AssertionError` of line 129 on a falsy
non-`None` status, and otherwise the `SESSION` / `ROOM` / ignore
dispatch of lines 131-177. -/
def handleMessage (st : ServerState) (uid : String) (msg : String) : StepOut :=
  match alook st.peers uid with
  | none => ⟨st, [], true⟩
  | some p =>
    match p.status with
    | some r =>
      if r = "session" then handleRelay st uid msg
      else if r ≠ "" then handleRoomCmd st uid r msg
      else ⟨st, [], true⟩
    | none =>
      if pyStartsWith msg "SESSION" then handleSession st uid p none msg
      else if pyStartsWith msg "ROOM" then handleRoomJoin st uid p msg
      else ⟨st, [], false⟩

/-- A frame processed to completion by a peer's task.  When the handler
crashes, the `finally` block of `handler` (signaling.py lines 197-202)
still runs `remove_peer`, which this composition applies. -/
def applyMsg (st : ServerState) (uid : String) (msg : String) : StepOut :=
  let r := handleMessage st uid msg
  if r.crashed then
    let c := remove_peer r.st uid
    ⟨c.st, r.acts ++ c.acts, c.crashed⟩
  else r

/-- Outcome of `hello_peer` for a fresh connection. -/
inductive HelloOutcome where
  | ok (uid : String)
  | closedProto (reason : String)
  | crashed
deriving DecidableEq

/-- Embeds `hello_peer` (signaling.py lines 179-191).  A first frame
that does not split into two parts raises `ValueError` at line 182
before either `ws.close` call, so no close code is sent; otherwise the
two close-with-1002 paths and the `HELLO` reply follow lines 183-190. -/
def helloPeer (peers : List (String × Peer)) (frame : String) :
    HelloOutcome × List Act :=
  match pySplit1 frame with
  | [hello, uid] =>
    if hello ≠ "HELLO" then
      (.closedProto "invalid protocol", [Act.closeCode 1002 "invalid protocol"])
    else if uid = "" ∨ (alook peers uid).isSome ∨ pySplit uid ≠ [uid] then
      (.closedProto "invalid peer uid", [Act.closeCode 1002 "invalid peer uid"])
    else
      (.ok uid, [Act.send uid "HELLO"])
  | _ => (.crashed, [])

/-- A whole connection-acceptance event: `hello_peer` followed, on
success only, by the registration with status `None` at signaling.py
line 86.  On every rejection path the registries are untouched. -/
def applyConnect (st : ServerState) (frame : String) (ws raddr : Nat) :
    StepOut :=
  match helloPeer st.peers frame with
  | (.ok uid, acts) =>
    ⟨{ st with peers := aset st.peers uid ⟨ws, raddr, none⟩ }, acts, false⟩
  | (_, acts) => ⟨st, acts, false⟩

/-- Client-visible events driving the server. -/
inductive Event where
  | connect (frame : String) (ws raddr : Nat)
  | message (uid : String) (msg : String)
  | disconnect (uid : String)

/-- Apply one event, processed to completion. -/
def applyEvent (st : ServerState) : Event → StepOut
  | .connect frame ws raddr => applyConnect st frame ws raddr
  | .message uid msg => applyMsg st uid msg
  | .disconnect uid => remove_peer st uid

/-- The empty initial registries of `SignalingServer.__init__`. -/
def initState : ServerState := ⟨[], [], []⟩

/-- States of the registries reachable at event boundaries. -/
inductive Reachable : ServerState → Prop where
  | init : Reachable initState
  | step {st : ServerState} (ev : Event) : Reachable st →
      Reachable (applyEvent st ev).st

/-- An event is session-safe when, if it is an accepted `SESSION`
command (idle sender, callee registered), the callee's status is idle.
The code itself never checks the callee's status; restricting traces to
session-safe events is exactly what the session/room invariants need. -/
def sessionSafe (st : ServerState) : Event → Bool
  | .message uid msg =>
    match alook st.peers uid with
    | some p =>
      match p.status with
      | none =>
        if pyStartsWith msg "SESSION" then
          match pySplit1 msg with
          | [_, callee_id] =>
            match alook st.peers callee_id with
            | some callee => callee.status.isNone
            | none => true
          | _ => true
        else true
      | some _ => true
    | none => true
  | _ => true

/-- States reachable along traces whose every event is session-safe. -/
inductive ReachableSafe : ServerState → Prop where
  | init : ReachableSafe initState
  | step {st : ServerState} (ev : Event) : ReachableSafe st →
      sessionSafe st ev = true → ReachableSafe (applyEvent st ev).st

/-- Session-map symmetry: `sessions[A] = B` exactly when `sessions[B] = A`. -/
def SessSym (st : ServerState) : Prop :=
  ∀ a b, alook st.sessions a = some b ↔ alook st.sessions b = some a

/-- A peer holding a session entry is registered with status `'session'`. -/
def SessEntryStatus (st : ServerState) : Prop :=
  ∀ a b, alook st.sessions a = some b →
    ∃ p, alook st.peers a = some p ∧ p.status = some "session"

/-- A registered peer with a room status is a member of that room. -/
def RoomOfStatus (st : ServerState) : Prop :=
  ∀ a p r, alook st.peers a = some p → p.status = some r → r ≠ "session" →
    ∃ ms, alook st.rooms r = some ms ∧ a ∈ ms

/-- A room member is a registered peer whose status is that room. -/
def StatusOfMember (st : ServerState) : Prop :=
  ∀ r ms a, alook st.rooms r = some ms → a ∈ ms →
    ∃ p, alook st.peers a = some p ∧ p.status = some r

/-- No room is keyed by the reserved id `'session'`. -/
def NoSessionRoomKey (st : ServerState) : Prop :=
  alook st.rooms "session" = none

/-- No registered peer has the falsy status `''`. -/
def StatusNonempty (st : ServerState) : Prop :=
  ∀ a p, alook st.peers a = some p → p.status ≠ some ""

/-- The inductive invariant tying the three registries together. -/
def Inv (st : ServerState) : Prop :=
  SessSym st ∧ SessEntryStatus st ∧ RoomOfStatus st ∧ StatusOfMember st ∧
    NoSessionRoomKey st ∧ StatusNonempty st

/-- Fold a list of events through the server, event by event. -/
def runEvents (st : ServerState) (evs : List Event) : ServerState :=
  evs.foldl (fun s ev => (applyEvent s ev).st) st

/-- Check that every event of a trace is session-safe when it fires. -/
def runSafeEvents : ServerState → List Event → Bool
  | _, [] => true
  | st, ev :: evs => sessionSafe st ev && runSafeEvents (applyEvent st ev).st evs

/-- Events: alice and bob connect and register. -/
def evAB : List Event :=
  [.connect "HELLO alice" 1 10, .connect "HELLO bob" 2 20]

/-- Events: alice and bob connect, then alice pairs with bob. -/
def evSess : List Event := evAB ++ [.message "alice" "SESSION bob"]

/-- Events of `evSess` followed by carol connecting. -/
def evSess3 : List Event := evSess ++ [.connect "HELLO carol" 3 30]

/-- Events of `evSess3` followed by carol naming the busy alice as callee. -/
def evBad : List Event := evSess3 ++ [.message "carol" "SESSION alice"]

/-- Events: alice and bob connect and both join room lobby. -/
def evLobby : List Event :=
  evAB ++ [.message "alice" "ROOM lobby", .message "bob" "ROOM lobby"]

/-- Two registered idle peers alice and bob. -/
def stAB : ServerState := runEvents initState evAB

/-- alice and bob paired in a session. -/
def stSess : ServerState := runEvents initState evSess

/-- alice and bob in a session, carol registered and idle. -/
def stSess3 : ServerState := runEvents initState evSess3

/-- The state after carol, while idle, sends `SESSION alice` with alice
already in a session with bob: the code performs no callee-status check
(signaling.py lines 131-148), so `sessions[alice]` is overwritten. -/
def stBad : ServerState := runEvents initState evBad

/-- alice and bob both members of room `lobby`. -/
def stLobby : ServerState := runEvents initState evLobby

/-- The registry state during `cleanup_room`'s `ROOM_PEER_LEFT`
broadcast for alice leaving `lobby`: alice is already removed from the
member set (signaling.py line 66) while her registry entry, still with
status `lobby`, is deleted only later at line 79. -/
def stLobbyMid : ServerState :=
  match cleanup_room_enter stLobby "alice" "lobby" with
  | some (st, _) => st
  | none => initState

/-- Process a list of frames received from one peer, in order, collecting
all network actions the server performs. -/
def runMsgs (st : ServerState) (uid : String) : List String → ServerState × List Act
  | [] => (st, [])
  | m :: ms =>
    let r := applyMsg st uid m
    let rest := runMsgs r.st uid ms
    (rest.1, r.acts ++ rest.2)

/-- Events: alice and bob connect, bob joins lobby (alice stays idle). -/
def evBobLobby : List Event := evAB ++ [.message "bob" "ROOM lobby"]

/-- bob alone in lobby, alice registered and idle. -/
def stBobLobby : ServerState := runEvents initState evBobLobby

theorem alook_adel {β : Type} (l : List (String × β)) (k k' : String) :
    alook (adel l k) k' = if k = k' then none else alook l k' := by
  induction l with
  | nil =>
    simp only [adel, List.filter_nil, alook]
    split <;> rfl
  | cons p rest ih =>
    obtain ⟨a, b⟩ := p
    simp only [adel] at ih ⊢
    rw [List.filter_cons]
    by_cases hp : a = k
    · have hd : (decide ((a, b).1 ≠ k)) = false := by simp [hp]
      rw [hd]
      simp only [Bool.false_eq_true, if_false]
      rw [ih]
      by_cases h : k = k'
      · simp [h]
      · have hak : ¬a = k' := fun hh => h (hp ▸ hh)
        simp [h, alook, hak]
    · have hd : (decide ((a, b).1 ≠ k)) = true := by simp [hp]
      rw [hd]
      simp only [if_true]
      by_cases hak : a = k'
      · have h : ¬k = k' := fun hh => hp (hh ▸ hak)
        simp [alook, hak, h]
      · simp only [alook, if_neg hak]
        exact ih

theorem alook_aset {β : Type} (l : List (String × β)) (k k' : String) (v : β) :
    alook (aset l k v) k' = if k = k' then some v else alook l k' := by
  simp only [aset, alook]
  by_cases h : k = k'
  · simp [h]
  · rw [if_neg h, if_neg h]
    have := alook_adel l k k'
    simp only [adel] at this
    rw [this, if_neg h]

theorem inv_init : Inv initState := by
  refine ⟨?_, ?_, ?_, ?_, ?_, ?_⟩
  · intro a b
    constructor <;> (intro h; simp [initState, alook] at h)
  · intro a b h; simp [initState, alook] at h
  · intro a p r hp hs hr; simp [initState, alook] at hp
  · intro r ms a hm; simp [initState, alook] at hm
  · rfl
  · intro a p hp; simp [initState, alook] at hp

theorem sess_none_of_status {st : ServerState} (hI : Inv st) {a : String}
    {p : Peer} (hp : alook st.peers a = some p)
    (hs : p.status ≠ some "session") : alook st.sessions a = none := by
  cases h : alook st.sessions a with
  | none => rfl
  | some b =>
    obtain ⟨q, hq, hqs⟩ := hI.2.1 a b h
    rw [hp] at hq
    exact absurd (Option.some.inj hq ▸ hqs) hs

theorem sess_no_target_of_status {st : ServerState} (hI : Inv st) {a : String}
    {p : Peer} (hp : alook st.peers a = some p)
    (hs : p.status ≠ some "session") :
    ∀ x, alook st.sessions x ≠ some a := by
  intro x hx
  have := (hI.1 x a).mp hx
  rw [sess_none_of_status hI hp hs] at this
  exact Option.noConfusion this

theorem not_mem_of_status {st : ServerState} (hI : Inv st) {a : String}
    {p : Peer} (hp : alook st.peers a = some p) {r : String}
    {ms : List String} (hr : alook st.rooms r = some ms)
    (hs : p.status ≠ some r) : a ∉ ms := by
  intro hmem
  obtain ⟨q, hq, hqs⟩ := hI.2.2.2.1 r ms a hr hmem
  rw [hp] at hq
  exact hs (Option.some.inj hq ▸ hqs)

theorem bcast_of_regd (peers : List (String × Peer)) (pids : List String)
    (frame : String)
    (h : ∀ pid ∈ pids, (alook peers pid).isSome = true) :
    bcast peers pids frame = (pids.map (fun pid => Act.send pid frame), false) := by
  induction pids with
  | nil => rfl
  | cons pid rest ih =>
    have h1 := h pid (List.mem_cons_self pid rest)
    cases hp : alook peers pid with
    | none => rw [hp] at h1; simp [Option.isSome] at h1
    | some q =>
      simp only [bcast, hp]
      rw [ih (fun x hx => h x (List.mem_cons_of_mem pid hx))]
      simp

theorem inv_adel_peer {st : ServerState} (hI : Inv st) (uid : String)
    (hnm : ∀ r ms, alook st.rooms r = some ms → uid ∉ ms)
    (hns : alook st.sessions uid = none) :
    Inv { st with peers := adel st.peers uid } := by
  obtain ⟨hSym, hSes, hRoS, hSoM, hNoK, hSne⟩ := hI
  refine ⟨hSym, ?_, ?_, ?_, hNoK, ?_⟩
  · intro a b hab
    by_cases ha : a = uid
    · rw [ha, hns] at hab; exact Option.noConfusion hab
    · obtain ⟨p, hp, hps⟩ := hSes a b hab
      refine ⟨p, ?_, hps⟩
      rw [alook_adel, if_neg (fun h => ha h.symm)]
      exact hp
  · intro a p r hp hst hrs
    rw [alook_adel] at hp
    by_cases ha : uid = a
    · rw [if_pos ha] at hp; exact Option.noConfusion hp
    · rw [if_neg ha] at hp
      exact hRoS a p r hp hst hrs
  · intro r ms a hr hmem
    obtain ⟨p, hp, hps⟩ := hSoM r ms a hr hmem
    refine ⟨p, ?_, hps⟩
    rw [alook_adel]
    by_cases ha : uid = a
    · exact absurd (ha ▸ hmem) (hnm r ms hr)
    · rw [if_neg ha]; exact hp
  · intro a p hp
    rw [alook_adel] at hp
    by_cases ha : uid = a
    · rw [if_pos ha] at hp; exact Option.noConfusion hp
    · rw [if_neg ha] at hp; exact hSne a p hp

theorem not_mem_any_of_session {st : ServerState} (hI : Inv st) {u : String}
    {p : Peer} (hp : alook st.peers u = some p)
    (hst : p.status = some "session") :
    ∀ r ms, alook st.rooms r = some ms → u ∉ ms := by
  intro r ms hr
  by_cases hrr : r = "session"
  · rw [hrr, hI.2.2.2.2.1] at hr
    exact fun _ => Option.noConfusion hr
  · exact not_mem_of_status hI hp hr (fun h => hrr (Option.some.inj (hst ▸ h)).symm)

theorem not_mem_any_of_none {st : ServerState} (hI : Inv st) {u : String}
    {p : Peer} (hp : alook st.peers u = some p) (hst : p.status = none) :
    ∀ r ms, alook st.rooms r = some ms → u ∉ ms := by
  intro r ms hr
  exact not_mem_of_status hI hp hr (fun h => Option.noConfusion (hst ▸ h))

theorem not_mem_any_of_unreg {st : ServerState} (hI : Inv st) {u : String}
    (hp : alook st.peers u = none) :
    ∀ r ms, alook st.rooms r = some ms → u ∉ ms := by
  intro r ms hr hmem
  obtain ⟨p, hpp, _⟩ := hI.2.2.2.1 r ms u hr hmem
  rw [hp] at hpp
  exact Option.noConfusion hpp

theorem inv_remove_self {st : ServerState} (hI : Inv st) {uid : String}
    (huv : alook st.sessions uid = some uid) :
    Inv { st with sessions := adel st.sessions uid,
                  peers := adel st.peers uid } := by
  obtain ⟨hSym, hSes, hRoS, hSoM, hNoK, hSne⟩ := hI
  obtain ⟨p, hp, hps⟩ := hSes uid uid huv
  refine ⟨?_, ?_, ?_, ?_, hNoK, ?_⟩
  · intro a b
    simp only [alook_adel]
    by_cases ha : uid = a <;> by_cases hb : uid = b
    · rw [if_pos ha, if_pos hb]
      constructor <;> (intro h; exact Option.noConfusion h)
    · simp only [if_pos ha, if_neg hb]
      constructor
      · intro h; exact Option.noConfusion h
      · intro h
        have := (hSym b a).mp h
        rw [← ha, huv] at this
        exact absurd (Option.some.inj this) hb
    · simp only [if_neg ha, if_pos hb]
      constructor
      · intro h
        have := (hSym a b).mp h
        rw [← hb, huv] at this
        exact absurd (Option.some.inj this) ha
      · intro h; exact Option.noConfusion h
    · simp only [if_neg ha, if_neg hb]
      exact hSym a b
  · intro a b hab
    rw [alook_adel] at hab
    by_cases ha : uid = a
    · rw [if_pos ha] at hab; exact Option.noConfusion hab
    · rw [if_neg ha] at hab
      obtain ⟨q, hq, hqs⟩ := hSes a b hab
      exact ⟨q, by rw [alook_adel, if_neg ha]; exact hq, hqs⟩
  · intro a q r hq hst hrs
    rw [alook_adel] at hq
    by_cases ha : uid = a
    · rw [if_pos ha] at hq; exact Option.noConfusion hq
    · rw [if_neg ha] at hq
      exact hRoS a q r hq hst hrs
  · intro r ms a hr hmem
    obtain ⟨q, hq, hqs⟩ := hSoM r ms a hr hmem
    refine ⟨q, ?_, hqs⟩
    rw [alook_adel]
    by_cases ha : uid = a
    · exact absurd (ha ▸ hmem)
        (not_mem_any_of_session ⟨hSym, hSes, hRoS, hSoM, hNoK, hSne⟩ hp hps r ms hr)
    · rw [if_neg ha]; exact hq
  · intro a q hq
    rw [alook_adel] at hq
    by_cases ha : uid = a
    · rw [if_pos ha] at hq; exact Option.noConfusion hq
    · rw [if_neg ha] at hq; exact hSne a q hq

theorem inv_remove_pair {st : ServerState} (hI : Inv st) {uid other : String}
    (huv : alook st.sessions uid = some other) :
    Inv { st with sessions := adel (adel st.sessions uid) other,
                  peers := adel (adel st.peers other) uid } := by
  obtain ⟨hSym, hSes, hRoS, hSoM, hNoK, hSne⟩ := hI
  have hvu : alook st.sessions other = some uid := (hSym uid other).mp huv
  obtain ⟨p, hp, hps⟩ := hSes uid other huv
  obtain ⟨q, hq, hqs⟩ := hSes other uid hvu
  refine ⟨?_, ?_, ?_, ?_, hNoK, ?_⟩
  · intro a b
    simp only [alook_adel]
    constructor
    · intro h
      split at h
      · exact Option.noConfusion h
      · split at h
        · exact Option.noConfusion h
        · rename_i hoa hua
          have hb := (hSym a b).mp h
          have hbo : ¬other = b := by
            intro hh
            rw [← hh] at hb
            rw [hvu] at hb
            exact hua (Option.some.inj hb)
          have hbu : ¬uid = b := by
            intro hh
            rw [← hh] at hb
            rw [huv] at hb
            exact hoa (Option.some.inj hb)
          rw [if_neg hbo, if_neg hbu]
          exact hb
    · intro h
      split at h
      · exact Option.noConfusion h
      · split at h
        · exact Option.noConfusion h
        · rename_i hob hub
          have ha := (hSym b a).mp h
          have hao : ¬other = a := by
            intro hh
            rw [← hh] at ha
            rw [hvu] at ha
            exact hub (Option.some.inj ha)
          have hau : ¬uid = a := by
            intro hh
            rw [← hh] at ha
            rw [huv] at ha
            exact hob (Option.some.inj ha)
          rw [if_neg hao, if_neg hau]
          exact ha
  · intro a b hab
    rw [alook_adel] at hab
    split at hab
    · exact Option.noConfusion hab
    · rw [alook_adel] at hab
      split at hab
      · exact Option.noConfusion hab
      · rename_i hoa hua
        obtain ⟨w, hw, hws⟩ := hSes a b hab
        refine ⟨w, ?_, hws⟩
        rw [alook_adel, if_neg hua, alook_adel, if_neg hoa]
        exact hw
  · intro a w r hw hst hrs
    rw [alook_adel] at hw
    split at hw
    · exact Option.noConfusion hw
    · rw [alook_adel] at hw
      split at hw
      · exact Option.noConfusion hw
      · exact hRoS a w r hw hst hrs
  · intro r ms a hr hmem
    obtain ⟨w, hw, hws⟩ := hSoM r ms a hr hmem
    have hI' : Inv st := ⟨hSym, hSes, hRoS, hSoM, hNoK, hSne⟩
    refine ⟨w, ?_, hws⟩
    rw [alook_adel]
    by_cases hua : uid = a
    · exact absurd (hua ▸ hmem) (not_mem_any_of_session hI' hp hps r ms hr)
    · rw [if_neg hua, alook_adel]
      by_cases hoa : other = a
      · exact absurd (hoa ▸ hmem) (not_mem_any_of_session hI' hq hqs r ms hr)
      · rw [if_neg hoa]; exact hw
  · intro a w hw
    rw [alook_adel] at hw
    split at hw
    · exact Option.noConfusion hw
    · rw [alook_adel] at hw
      split at hw
      · exact Option.noConfusion hw
      · exact hSne a w hw

theorem inv_after_room_cleanup {st : ServerState} (hI : Inv st)
    {uid r : String} {p : Peer} {ms : List String}
    (hp : alook st.peers uid = some p) (hst : p.status = some r)
    (hrs : r ≠ "session") (hms : alook st.rooms r = some ms) :
    Inv { st with
            rooms := aset st.rooms r (ms.filter (fun x => x ≠ uid)),
            peers := adel st.peers uid } := by
  obtain ⟨hSym, hSes, hRoS, hSoM, hNoK, hSne⟩ := hI
  have hI' : Inv st := ⟨hSym, hSes, hRoS, hSoM, hNoK, hSne⟩
  have hsessnone : alook st.sessions uid = none :=
    sess_none_of_status hI' hp
      (fun h => hrs (Option.some.inj ((hst ▸ h : (some r : Option String) = some "session"))))
  refine ⟨hSym, ?_, ?_, ?_, ?_, ?_⟩
  · intro a b hab
    by_cases ha : a = uid
    · rw [ha, hsessnone] at hab; exact Option.noConfusion hab
    · obtain ⟨q, hq, hqs⟩ := hSes a b hab
      refine ⟨q, ?_, hqs⟩
      rw [alook_adel, if_neg (fun h => ha h.symm)]
      exact hq
  · intro a q r' hq hqst hr's
    rw [alook_adel] at hq
    split at hq
    · exact Option.noConfusion hq
    · rename_i hua
      obtain ⟨ms', hms', hmem'⟩ := hRoS a q r' hq hqst hr's
      rw [alook_aset]
      by_cases hrr : r = r'
      · subst hrr
        rw [hms] at hms'
        refine ⟨ms.filter (fun x => x ≠ uid), if_pos rfl, ?_⟩
        rw [List.mem_filter]
        refine ⟨by rw [Option.some.inj hms']; exact hmem', ?_⟩
        simp only [ne_eq, decide_eq_true_eq]
        exact fun h => hua h.symm
      · rw [if_neg hrr]
        exact ⟨ms', hms', hmem'⟩
  · intro r' ms' a hr' hmem'
    rw [alook_aset] at hr'
    split at hr'
    · rename_i hrr
      have hms'eq := Option.some.inj hr'
      rw [← hms'eq] at hmem'
      rw [List.mem_filter] at hmem'
      obtain ⟨hamem, hane⟩ := hmem'
      obtain ⟨q, hq, hqs⟩ := hSoM r ms a hms hamem
      refine ⟨q, ?_, hrr ▸ hqs⟩
      rw [alook_adel]
      simp only [decide_eq_true_eq] at hane
      rw [if_neg (fun h => hane h.symm)]
      exact hq
    · rename_i hrr
      obtain ⟨q, hq, hqs⟩ := hSoM r' ms' a hr' hmem'
      refine ⟨q, ?_, hqs⟩
      rw [alook_adel]
      by_cases hua : uid = a
      · exfalso
        rw [← hua] at hq
        rw [hp] at hq
        have := Option.some.inj hq
        rw [← this] at hqs
        rw [hst] at hqs
        exact hrr (Option.some.inj hqs)
      · rw [if_neg hua]; exact hq
  · show alook (aset st.rooms r (ms.filter (fun x => x ≠ uid))) "session" = none
    rw [alook_aset, if_neg hrs]
    exact hNoK
  · intro a q hq
    rw [alook_adel] at hq
    split at hq
    · exact Option.noConfusion hq
    · exact hSne a q hq

theorem inv_remove_peer (st : ServerState) (uid : String) (hI : Inv st) :
    Inv (remove_peer st uid).st := by
  cases hs0 : alook st.sessions uid with
  | none =>
    cases hp0 : alook st.peers uid with
    | none =>
      simp only [remove_peer, cleanup_session, hs0, hp0]
      exact hI
    | some p =>
      cases hstat : p.status with
      | none =>
        simp only [remove_peer, cleanup_session, hs0, hp0, hstat]
        exact inv_adel_peer hI uid (not_mem_any_of_none hI hp0 hstat) hs0
      | some r =>
        by_cases hss : r = "session" ∨ r = ""
        · rcases hss with hss | hss
          · simp only [remove_peer, cleanup_session, hs0, hp0, hstat, hss]
            exact inv_adel_peer hI uid
              (not_mem_any_of_session hI hp0 (hss ▸ hstat)) hs0
          · exact absurd (hss ▸ hstat) (hI.2.2.2.2.2 uid p hp0)
        · push_neg at hss
          obtain ⟨ms, hms, hmem⟩ := hI.2.2.1 uid p r hp0 hstat hss.1
          have hreg : ∀ pid ∈ ms.filter (fun x => x ≠ uid),
              (alook st.peers pid).isSome = true := by
            intro pid hpid
            rw [List.mem_filter] at hpid
            obtain ⟨q, hq, _⟩ := hI.2.2.2.1 r ms pid hms hpid.1
            rw [hq]; rfl
          simp only [remove_peer, cleanup_session, hs0, hp0, hstat,
            cleanup_room, cleanup_room_enter, hms, if_pos hmem,
            if_neg (fun h : r = "session" ∨ r = "" => (by
              rcases h with h | h
              · exact hss.1 h
              · exact hss.2 h)),
            bcast_of_regd st.peers (ms.filter (fun x => x ≠ uid)) _ hreg]
          exact inv_after_room_cleanup hI hp0 hstat hss.1 hms
  | some other =>
    by_cases huo : uid = other
    · subst huo
      obtain ⟨p, hp, hps⟩ := hI.2.1 uid uid hs0
      have hlook : alook (adel st.sessions uid) uid = none := by
        rw [alook_adel, if_pos rfl]
      simp only [remove_peer, cleanup_session, hs0, hlook, hp, hps]
      exact inv_remove_self hI hs0
    · have hvu : alook st.sessions other = some uid := (hI.1 uid other).mp hs0
      obtain ⟨p, hp, hps⟩ := hI.2.1 uid other hs0
      obtain ⟨q, hq, hqs⟩ := hI.2.1 other uid hvu
      have hlook1 : alook (adel st.sessions uid) other = some uid := by
        rw [alook_adel, if_neg huo]
        exact hvu
      have hlook2 : alook (adel st.peers other) uid = some p := by
        rw [alook_adel, if_neg (fun h => huo h.symm)]
        exact hp
      simp only [remove_peer, cleanup_session, hs0, hlook1, hq, hlook2, hps]
      exact inv_remove_pair hI hs0

theorem inv_session_commit {st : ServerState} (hI : Inv st)
    {uid callee_id : String} {p callee : Peer}
    (hp : alook st.peers uid = some p) (hpst : p.status = none)
    (hc : alook st.peers callee_id = some callee)
    (hcst : callee.status = none) :
    Inv { st with
            peers := aset (aset st.peers uid { p with status := some "session" })
              callee_id { callee with status := some "session" },
            sessions := aset (aset st.sessions uid callee_id) callee_id uid } := by
  obtain ⟨hSym, hSes, hRoS, hSoM, hNoK, hSne⟩ := hI
  have hI' : Inv st := ⟨hSym, hSes, hRoS, hSoM, hNoK, hSne⟩
  have hpn : p.status ≠ some "session" := fun h => Option.noConfusion (hpst ▸ h)
  have hcn : callee.status ≠ some "session" := fun h => Option.noConfusion (hcst ▸ h)
  have hsu : alook st.sessions uid = none := sess_none_of_status hI' hp hpn
  have hsc : alook st.sessions callee_id = none := sess_none_of_status hI' hc hcn
  have htu : ∀ x, alook st.sessions x ≠ some uid :=
    sess_no_target_of_status hI' hp hpn
  have htc : ∀ x, alook st.sessions x ≠ some callee_id :=
    sess_no_target_of_status hI' hc hcn
  refine ⟨?_, ?_, ?_, ?_, hNoK, ?_⟩
  · have key : ∀ a b,
        (if callee_id = a then some uid
         else if uid = a then some callee_id else alook st.sessions a) = some b →
        (if callee_id = b then some uid
         else if uid = b then some callee_id else alook st.sessions b) = some a := by
      intro a b h
      by_cases hca : callee_id = a
      · rw [if_pos hca] at h
        have hub : uid = b := Option.some.inj h
        by_cases hcb : callee_id = b
        · rw [if_pos hcb]
          exact congrArg some (by rw [hub, ← hcb, hca])
        · rw [if_neg hcb, if_pos hub]
          exact congrArg some hca
      · rw [if_neg hca] at h
        by_cases hua : uid = a
        · rw [if_pos hua] at h
          have hcb : callee_id = b := Option.some.inj h
          rw [if_pos hcb]
          exact congrArg some hua
        · rw [if_neg hua] at h
          have hbc : ¬callee_id = b := fun hh => htc a (hh ▸ h)
          have hbu : ¬uid = b := fun hh => htu a (hh ▸ h)
          rw [if_neg hbc, if_neg hbu]
          exact (hSym a b).mp h
    intro a b
    simp only [alook_aset]
    exact ⟨key a b, key b a⟩
  · intro a b hab
    simp only [alook_aset] at hab ⊢
    by_cases hca : callee_id = a
    · exact ⟨_, if_pos hca, rfl⟩
    · rw [if_neg hca] at hab ⊢
      by_cases hua : uid = a
      · exact ⟨_, if_pos hua, rfl⟩
      · rw [if_neg hua] at hab ⊢
        obtain ⟨q, hq, hqs⟩ := hSes a b hab
        exact ⟨q, hq, hqs⟩
  · intro a q r hq hqst hrs
    simp only [alook_aset] at hq
    by_cases hca : callee_id = a
    · rw [if_pos hca] at hq
      have := Option.some.inj hq
      rw [← this] at hqst
      exact absurd (Option.some.inj hqst).symm hrs
    · rw [if_neg hca] at hq
      by_cases hua : uid = a
      · rw [if_pos hua] at hq
        have := Option.some.inj hq
        rw [← this] at hqst
        exact absurd (Option.some.inj hqst).symm hrs
      · rw [if_neg hua] at hq
        exact hRoS a q r hq hqst hrs
  · intro r ms a hr hmem
    obtain ⟨q, hq, hqs⟩ := hSoM r ms a hr hmem
    simp only [alook_aset]
    by_cases hca : callee_id = a
    · exfalso
      rw [← hca, hc] at hq
      rw [← Option.some.inj hq, hcst] at hqs
      exact Option.noConfusion hqs
    · rw [if_neg hca]
      by_cases hua : uid = a
      · exfalso
        rw [← hua, hp] at hq
        rw [← Option.some.inj hq, hpst] at hqs
        exact Option.noConfusion hqs
      · rw [if_neg hua]
        exact ⟨q, hq, hqs⟩
  · intro a q hq
    simp only [alook_aset] at hq
    by_cases hca : callee_id = a
    · rw [if_pos hca] at hq
      rw [← Option.some.inj hq]
      intro h
      simp at h
    · rw [if_neg hca] at hq
      by_cases hua : uid = a
      · rw [if_pos hua] at hq
        rw [← Option.some.inj hq]
        intro h
        simp at h
      · rw [if_neg hua] at hq
        exact hSne a q hq

theorem inv_add_empty_room {st : ServerState} (hI : Inv st) {rid : String}
    (hrs : rid ≠ "session") (hnone : alook st.rooms rid = none) :
    Inv { st with rooms := aset st.rooms rid [] } := by
  obtain ⟨hSym, hSes, hRoS, hSoM, hNoK, hSne⟩ := hI
  refine ⟨hSym, hSes, ?_, ?_, ?_, hSne⟩
  · intro a q r hq hqst hrs'
    obtain ⟨ms, hms, hmem⟩ := hRoS a q r hq hqst hrs'
    rw [alook_aset]
    by_cases hrr : rid = r
    · rw [← hrr, hnone] at hms
      exact Option.noConfusion hms
    · rw [if_neg hrr]
      exact ⟨ms, hms, hmem⟩
  · intro r ms a hr hmem
    rw [alook_aset] at hr
    split at hr
    · rw [← Option.some.inj hr] at hmem
      exact absurd hmem (List.not_mem_nil a)
    · exact hSoM r ms a hr hmem
  · show alook (aset st.rooms rid []) "session" = none
    rw [alook_aset, if_neg hrs]
    exact hNoK

theorem inv_room_join_commit {st : ServerState} (hI : Inv st)
    {uid rid : String} {p : Peer} {members : List String}
    (hp : alook st.peers uid = some p) (hpst : p.status = none)
    (hms : alook st.rooms rid = some members) (hnm : uid ∉ members)
    (hrs : rid ≠ "session") (hre : rid ≠ "") :
    Inv { st with
            peers := aset st.peers uid { p with status := some rid },
            rooms := aset st.rooms rid (uid :: members) } := by
  obtain ⟨hSym, hSes, hRoS, hSoM, hNoK, hSne⟩ := hI
  have hI' : Inv st := ⟨hSym, hSes, hRoS, hSoM, hNoK, hSne⟩
  have hsu : alook st.sessions uid = none :=
    sess_none_of_status hI' hp (fun h => Option.noConfusion (hpst ▸ h))
  refine ⟨hSym, ?_, ?_, ?_, ?_, ?_⟩
  · intro a b hab
    by_cases hua : uid = a
    · rw [← hua, hsu] at hab
      exact Option.noConfusion hab
    · obtain ⟨q, hq, hqs⟩ := hSes a b hab
      refine ⟨q, ?_, hqs⟩
      rw [alook_aset, if_neg hua]
      exact hq
  · intro a q r hq hqst hrs'
    rw [alook_aset] at hq
    by_cases hua : uid = a
    · rw [if_pos hua] at hq
      have hqe := Option.some.inj hq
      rw [← hqe] at hqst
      have hrr : r = rid := (Option.some.inj hqst).symm
      subst hrr
      rw [alook_aset, if_pos rfl]
      exact ⟨uid :: members, rfl, hua ▸ List.mem_cons_self uid members⟩
    · rw [if_neg hua] at hq
      obtain ⟨ms', hms', hmem'⟩ := hRoS a q r hq hqst hrs'
      rw [alook_aset]
      by_cases hrr : rid = r
      · subst hrr
        rw [hms] at hms'
        rw [if_pos rfl]
        refine ⟨uid :: members, rfl, ?_⟩
        rw [Option.some.inj hms']
        exact List.mem_cons_of_mem uid hmem'
      · rw [if_neg hrr]
        exact ⟨ms', hms', hmem'⟩
  · intro r ms a hr hmem
    rw [alook_aset] at hr
    split at hr
    · rename_i hrr
      rw [← Option.some.inj hr] at hmem
      rcases List.mem_cons.mp hmem with hau | hmem'
      · refine ⟨{ p with status := some rid }, ?_, by rw [hrr]⟩
        rw [alook_aset, if_pos (hau ▸ rfl : uid = a)]
      · obtain ⟨q, hq, hqs⟩ := hSoM rid members a hms hmem'
        refine ⟨q, ?_, by rw [hrr] at hqs; exact hqs⟩
        rw [alook_aset]
        have hua : ¬uid = a := fun hh => hnm (hh ▸ hmem')
        rw [if_neg hua]
        exact hq
    · rename_i hrr
      obtain ⟨q, hq, hqs⟩ := hSoM r ms a hr hmem
      rw [alook_aset]
      by_cases hua : uid = a
      · exfalso
        rw [← hua, hp] at hq
        rw [← Option.some.inj hq, hpst] at hqs
        exact Option.noConfusion hqs
      · rw [if_neg hua]
        exact ⟨q, hq, hqs⟩
  · show alook (aset st.rooms rid (uid :: members)) "session" = none
    rw [alook_aset, if_neg hrs]
    exact hNoK
  · intro a q hq
    rw [alook_aset] at hq
    split at hq
    · rw [← Option.some.inj hq]
      intro h
      simp at h
      exact hre h
    · exact hSne a q hq

theorem inv_register {st : ServerState} (hI : Inv st) {uid : String}
    (hfresh : alook st.peers uid = none) (ws raddr : Nat) :
    Inv { st with peers := aset st.peers uid ⟨ws, raddr, none⟩ } := by
  obtain ⟨hSym, hSes, hRoS, hSoM, hNoK, hSne⟩ := hI
  have hI' : Inv st := ⟨hSym, hSes, hRoS, hSoM, hNoK, hSne⟩
  refine ⟨hSym, ?_, ?_, ?_, hNoK, ?_⟩
  · intro a b hab
    by_cases hua : uid = a
    · exfalso
      obtain ⟨q, hq, _⟩ := hSes a b hab
      rw [← hua, hfresh] at hq
      exact Option.noConfusion hq
    · obtain ⟨q, hq, hqs⟩ := hSes a b hab
      refine ⟨q, ?_, hqs⟩
      rw [alook_aset, if_neg hua]
      exact hq
  · intro a q r hq hqst hrs
    rw [alook_aset] at hq
    split at hq
    · rw [← Option.some.inj hq] at hqst
      exact Option.noConfusion hqst
    · exact hRoS a q r hq hqst hrs
  · intro r ms a hr hmem
    obtain ⟨q, hq, hqs⟩ := hSoM r ms a hr hmem
    rw [alook_aset]
    by_cases hua : uid = a
    · exact absurd (hua ▸ hmem) (not_mem_any_of_unreg hI' hfresh r ms hr)
    · rw [if_neg hua]
      exact ⟨q, hq, hqs⟩
  · intro a q hq
    rw [alook_aset] at hq
    split at hq
    · rw [← Option.some.inj hq]
      intro h
      exact Option.noConfusion h
    · exact hSne a q hq

theorem handleRelay_st (st : ServerState) (uid msg : String) :
    (handleRelay st uid msg).st = st := by
  cases h1 : alook st.sessions uid with
  | none => simp only [handleRelay, h1]
  | some other_id =>
    cases h2 : alook st.peers other_id with
    | none => simp only [handleRelay, h1, h2]
    | some op =>
      by_cases h : op.status = some "session"
      · simp only [handleRelay, h1, h2, if_pos h]
      · simp only [handleRelay, h1, h2, if_neg h]

theorem handleRoomCmd_st (st : ServerState) (uid rid msg : String) :
    (handleRoomCmd st uid rid msg).st = st := by
  unfold handleRoomCmd
  repeat' split
  all_goals rfl

theorem inv_handleMessage (st : ServerState) (uid msg : String) (hI : Inv st)
    (hsafe : sessionSafe st (.message uid msg) = true) :
    Inv (handleMessage st uid msg).st := by
  cases hp0 : alook st.peers uid with
  | none =>
    simp only [handleMessage, hp0]
    exact hI
  | some p =>
    cases hstat : p.status with
    | some r =>
      by_cases hr : r = "session"
      · simp only [handleMessage, hp0, hstat, if_pos hr, handleRelay_st]
        exact hI
      · by_cases hre : r ≠ ""
        · simp only [handleMessage, hp0, hstat, if_neg hr, if_pos hre,
            handleRoomCmd_st]
          exact hI
        · simp only [handleMessage, hp0, hstat, if_neg hr, if_neg hre]
          exact hI
    | none =>
      by_cases hS : pyStartsWith msg "SESSION" = true
      · cases hsp : pySplit1 msg with
        | nil =>
          simp only [handleMessage, hp0, hstat, if_pos hS, handleSession, hsp]
          exact hI
        | cons t1 tl =>
          cases tl with
          | nil =>
            simp only [handleMessage, hp0, hstat, if_pos hS, handleSession, hsp]
            exact hI
          | cons t2 tl2 =>
            cases tl2 with
            | cons t3 tl3 =>
              simp only [handleMessage, hp0, hstat, if_pos hS, handleSession,
                hsp]
              exact hI
            | nil =>
              cases hc0 : alook st.peers t2 with
              | none =>
                simp only [handleMessage, hp0, hstat, if_pos hS, handleSession,
                  hsp, hc0]
                exact hI
              | some calleeP =>
                have hcst : calleeP.status = none := by
                  simp only [sessionSafe, hp0, hstat, if_pos hS, hsp, hc0] at hsafe
                  exact Option.isNone_iff_eq_none.mp hsafe
                simp only [handleMessage, hp0, hstat, if_pos hS, handleSession,
                  hsp, hc0, Option.isSome_none, Bool.false_eq_true, if_false]
                exact inv_session_commit hI hp0 hstat hc0 hcst
      · by_cases hR : pyStartsWith msg "ROOM" = true
        · cases hsp : pySplit1 msg with
          | nil =>
            simp only [handleMessage, hp0, hstat, if_neg hS, if_pos hR,
              handleRoomJoin, hsp]
            exact hI
          | cons t1 tl =>
            cases tl with
            | nil =>
              simp only [handleMessage, hp0, hstat, if_neg hS, if_pos hR,
                handleRoomJoin, hsp]
              exact hI
            | cons rid tl2 =>
              cases tl2 with
              | cons t3 tl3 =>
                simp only [handleMessage, hp0, hstat, if_neg hS, if_pos hR,
                  handleRoomJoin, hsp]
                exact hI
              | nil =>
                by_cases hv : rid = "session" ∨ pySplit rid ≠ [rid]
                · simp only [handleMessage, hp0, hstat, if_neg hS, if_pos hR,
                    handleRoomJoin, hsp, if_pos hv]
                  exact hI
                · have hv' := hv
                  push_neg at hv'
                  obtain ⟨hv1, hv2⟩ := hv'
                  have hre : rid ≠ "" := by
                    intro h
                    rw [h] at hv2
                    exact List.noConfusion hv2
                  cases hrm : alook st.rooms rid with
                  | some members =>
                    by_cases hin : uid ∈ members
                    · simp only [handleMessage, hp0, hstat, if_neg hS,
                        if_pos hR, handleRoomJoin, hsp, if_neg hv, hrm,
                        if_pos hin]
                      exact hI
                    · have hcommit :=
                        inv_room_join_commit hI hp0 hstat hrm hin hv1 hre
                      simp only [handleMessage, hp0, hstat, if_neg hS,
                        if_pos hR, handleRoomJoin, hsp, if_neg hv, hrm,
                        if_neg hin, roomJoinCommit]
                      exact hcommit
                  | none =>
                    have hI2 := inv_add_empty_room hI hv1 hrm
                    have hp2 : alook ({ st with
                        rooms := aset st.rooms rid [] }).peers uid = some p :=
                      hp0
                    have hrm2 : alook (aset st.rooms rid []) rid = some [] := by
                      rw [alook_aset, if_pos rfl]
                    have hcommit := inv_room_join_commit hI2 hp2 hstat hrm2
                      (List.not_mem_nil uid) hv1 hre
                    simp only [handleMessage, hp0, hstat, if_neg hS, if_pos hR,
                      handleRoomJoin, hsp, if_neg hv, hrm, roomJoinCommit]
                    exact hcommit
        · simp only [handleMessage, hp0, hstat, if_neg hS, if_neg hR]
          exact hI

theorem inv_applyMsg (st : ServerState) (uid msg : String) (hI : Inv st)
    (hsafe : sessionSafe st (.message uid msg) = true) :
    Inv (applyMsg st uid msg).st := by
  simp only [applyMsg]
  by_cases hc : (handleMessage st uid msg).crashed = true
  · rw [if_pos hc]
    exact inv_remove_peer _ uid (inv_handleMessage st uid msg hI hsafe)
  · rw [if_neg hc]
    exact inv_handleMessage st uid msg hI hsafe

theorem inv_applyConnect (st : ServerState) (frame : String) (ws raddr : Nat)
    (hI : Inv st) : Inv (applyConnect st frame ws raddr).st := by
  cases h1 : pySplit1 frame with
  | nil =>
    simp only [applyConnect, helloPeer, h1]
    exact hI
  | cons a tl =>
    cases tl with
    | nil =>
      simp only [applyConnect, helloPeer, h1]
      exact hI
    | cons b tl2 =>
      cases tl2 with
      | cons c tl3 =>
        simp only [applyConnect, helloPeer, h1]
        exact hI
      | nil =>
        by_cases hh : a ≠ "HELLO"
        · simp only [applyConnect, helloPeer, h1, if_pos hh]
          exact hI
        · by_cases hval : b = "" ∨ (alook st.peers b).isSome = true ∨
              pySplit b ≠ [b]
          · simp only [applyConnect, helloPeer, h1, if_neg hh, if_pos hval]
            exact hI
          · have hval' := hval
            push_neg at hval'
            have hfresh : alook st.peers b = none := by
              cases hb : alook st.peers b with
              | none => rfl
              | some q =>
                exfalso
                apply hval'.2.1
                rw [hb]
                rfl
            simp only [applyConnect, helloPeer, h1, if_neg hh, if_neg hval]
            exact inv_register hI hfresh ws raddr

theorem inv_reachable_safe {st : ServerState} (h : ReachableSafe st) :
    Inv st := by
  induction h with
  | init => exact inv_init
  | step ev hr hsafe ih =>
    cases ev with
    | connect frame ws raddr => exact inv_applyConnect _ frame ws raddr ih
    | message uid msg => exact inv_applyMsg _ uid msg ih hsafe
    | disconnect uid => exact inv_remove_peer _ uid ih

theorem reachable_run {st : ServerState} (h : Reachable st)
    (evs : List Event) : Reachable (runEvents st evs) := by
  induction evs generalizing st with
  | nil => exact h
  | cons ev evs ih => exact ih (Reachable.step ev h)

theorem reachableSafe_run {st : ServerState} (h : ReachableSafe st)
    (evs : List Event) (hs : runSafeEvents st evs = true) :
    ReachableSafe (runEvents st evs) := by
  induction evs generalizing st with
  | nil => exact h
  | cons ev evs ih =>
    simp only [runSafeEvents, Bool.and_eq_true] at hs
    exact ih (ReachableSafe.step ev h hs.1) hs.2

/-- C1 (amended).  Session symmetry invariant, restricted to traces in
which every accepted `SESSION` command names a callee whose status is
idle: at every event-boundary state reachable along such traces,
`sessions[A] = B` holds iff `sessions[B] = A`, and a session entry
exists for a peer only while that peer's registry status is
`'session'`.  The restriction is forced: the code never checks the
callee's status, and `C1_counterexample` shows a real trace in which a
`SESSION` naming an already-paired callee breaks symmetry. -/
theorem C1_session_symmetry_safe {st : ServerState} (h : ReachableSafe st) :
    (∀ a b, alook st.sessions a = some b ↔ alook st.sessions b = some a) ∧
    (∀ a b, alook st.sessions a = some b →
       ∃ p, alook st.peers a = some p ∧ p.status = some "session") :=
  ⟨(inv_reachable_safe h).1, (inv_reachable_safe h).2.1⟩

/-- Witness for C1: the session-safe trace in which alice and bob pair
up reaches a state satisfying both parts of the invariant. -/
theorem C1_session_symmetry_safe_witness :
    (∀ a b, alook stSess.sessions a = some b ↔ alook stSess.sessions b = some a) ∧
    (∀ a b, alook stSess.sessions a = some b →
       ∃ p, alook stSess.peers a = some p ∧ p.status = some "session") :=
  C1_session_symmetry_safe
    (reachableSafe_run ReachableSafe.init evSess (by decide))

/-- Counterexample to C1 as stated: the claim asserts that symmetry is
preserved even when an idle peer sends `SESSION` naming a callee
already in a session.  After the real trace `evBad` (alice and bob
pair, then idle carol sends `SESSION alice`), the state is reachable
and has `sessions[bob] = alice` but `sessions[alice] = carol`, so the
biconditional `sessions[A] = B ⇔ sessions[B] = A` fails at
`A = bob, B = alice`. -/
theorem C1_counterexample :
    Reachable stBad ∧
    alook stBad.sessions "bob" = some "alice" ∧
    alook stBad.sessions "alice" = some "carol" ∧
    ¬ (alook stBad.sessions "bob" = some "alice" ↔
        alook stBad.sessions "alice" = some "bob") := by
  refine ⟨reachable_run Reachable.init evBad, by decide, by decide, ?_⟩
  intro h
  have h1 : alook stBad.sessions "alice" = some "bob" := h.mp (by decide)
  have h2 : alook stBad.sessions "alice" = some "carol" := by decide
  rw [h1] at h2
  exact absurd (Option.some.inj h2) (by decide)

theorem relay_step {st : ServerState} {a b : String} {pa pb : Peer}
    (hpa : alook st.peers a = some pa) (hsa : pa.status = some "session")
    (hpb : alook st.peers b = some pb) (hsb : pb.status = some "session")
    (hab : alook st.sessions a = some b) (m : String) :
    applyMsg st a m = ⟨st, [Act.send b m], false⟩ := by
  have hm : handleMessage st a m = ⟨st, [Act.send b m], false⟩ := by
    simp only [handleMessage, hpa, hsa, handleRelay, hab, hpb, if_pos hsb,
      reduceIte]
  simp only [applyMsg, hm, Bool.false_eq_true, if_false]

/-- C2.  Relay fidelity: when `A` and `B` are both `InSession` and
paired (`sessions[A] = B`), every frame subsequently received from `A`
is forwarded to `B` as the byte-identical string, unparsed and
unvalidated (the statement quantifies over arbitrary frame contents),
one send per frame in the order received, and the registries are
untouched. -/
theorem C2_relay_fidelity (st : ServerState) (a b : String) (pa pb : Peer)
    (hpa : alook st.peers a = some pa) (hsa : pa.status = some "session")
    (hpb : alook st.peers b = some pb) (hsb : pb.status = some "session")
    (hab : alook st.sessions a = some b) (msgs : List String) :
    runMsgs st a msgs = (st, msgs.map (fun m => Act.send b m)) := by
  induction msgs with
  | nil => rfl
  | cons m ms ih =>
    simp only [runMsgs, relay_step hpa hsa hpb hsb hab m, ih, List.map_cons,
      List.singleton_append]

/-- Witness for C2 at the concrete session state: two opaque frames from
alice are delivered verbatim to bob in order. -/
theorem C2_relay_fidelity_witness :
    runMsgs stSess "alice" ["offer-sdp-blob", "SESSION bob"] =
      (stSess, [Act.send "bob" "offer-sdp-blob", Act.send "bob" "SESSION bob"]) :=
  C2_relay_fidelity stSess "alice" "bob" ⟨1, 10, some "session"⟩
    ⟨2, 20, some "session"⟩ (by decide) (by decide) (by decide) (by decide)
    (by decide) ["offer-sdp-blob", "SESSION bob"]

/-- C3.  Disconnect cascade: when cleanup runs for `A` while
`sessions[A] = B` and `sessions[B] = A`, `cleanup_session` removes both
session entries, and if `B` is still registered it deletes `B` from the
registry and closes `B`'s connection. -/
theorem C3_disconnect_cascade (st : ServerState) (a b : String)
    (hab : alook st.sessions a = some b) (hba : alook st.sessions b = some a)
    (hne : a ≠ b) :
    alook (cleanup_session st a).1.sessions a = none ∧
    alook (cleanup_session st a).1.sessions b = none ∧
    ∀ q, alook st.peers b = some q →
      alook (cleanup_session st a).1.peers b = none ∧
      Act.closeConn b ∈ (cleanup_session st a).2 := by
  have h1 : alook (adel st.sessions a) b = some a := by
    rw [alook_adel, if_neg hne]
    exact hba
  have h2 : alook (adel (adel st.sessions a) b) a = none := by
    rw [alook_adel]
    by_cases hba' : b = a
    · rw [if_pos hba']
    · rw [if_neg hba', alook_adel, if_pos rfl]
  have h3 : alook (adel (adel st.sessions a) b) b = none := by
    rw [alook_adel, if_pos rfl]
  cases hq : alook st.peers b with
  | none =>
    simp only [cleanup_session, hab, h1, hq]
    refine ⟨h2, h3, ?_⟩
    intro q hq'
    exact Option.noConfusion hq'
  | some q =>
    simp only [cleanup_session, hab, h1, hq]
    refine ⟨h2, h3, ?_⟩
    intro q' _
    constructor
    · rw [alook_adel, if_pos rfl]
    · exact List.mem_singleton.mpr rfl

/-- Witness for C3 at the concrete session state: alice's cleanup
removes both entries, deregisters bob and closes bob's connection. -/
theorem C3_disconnect_cascade_witness :
    alook (cleanup_session stSess "alice").1.sessions "alice" = none ∧
    alook (cleanup_session stSess "alice").1.sessions "bob" = none ∧
    (alook (cleanup_session stSess "alice").1.peers "bob" = none ∧
     Act.closeConn "bob" ∈ (cleanup_session stSess "alice").2) := by
  have h := C3_disconnect_cascade stSess "alice" "bob" (by decide) (by decide)
    (by decide)
  exact ⟨h.1, h.2.1, h.2.2 ⟨2, 20, some "session"⟩ (by decide)⟩

/-- C4 (amended).  Room membership invariant at event boundaries, on
traces whose `SESSION` commands always name idle callees: a peer is a
member of `rooms[r]` iff its registry status is `InRoom(r)` (encoded
`some r` with `r ≠ "session"`).  Two restrictions are forced by the
code: `C4_counterexample` shows the equivalence broken for the
departing peer during `cleanup_room`'s `ROOM_PEER_LEFT` broadcast
(member-set removal at line 66 precedes the registry deletion at line
79), and an unsafe `SESSION` naming an in-room callee overwrites the
callee's status while leaving it in the member set. -/
theorem C4_room_membership_safe {st : ServerState} (h : ReachableSafe st)
    (a r : String) (hr : r ≠ "session") :
    (∃ ms, alook st.rooms r = some ms ∧ a ∈ ms) ↔
    (∃ p, alook st.peers a = some p ∧ p.status = some r) := by
  have hI := inv_reachable_safe h
  constructor
  · rintro ⟨ms, hms, hmem⟩
    exact hI.2.2.2.1 r ms a hms hmem
  · rintro ⟨p, hp, hps⟩
    exact hI.2.2.1 a p r hp hps hr

/-- Witness for C4: in the state where alice and bob joined lobby, the
membership equivalence holds for alice. -/
theorem C4_room_membership_safe_witness :
    (∃ ms, alook stLobby.rooms "lobby" = some ms ∧ "alice" ∈ ms) ↔
    (∃ p, alook stLobby.peers "alice" = some p ∧ p.status = some "lobby") :=
  C4_room_membership_safe
    (reachableSafe_run ReachableSafe.init evLobby (by decide))
    "alice" "lobby" (by decide)

/-- Counterexample to C4 as stated: the claim asserts the equivalence at
every suspension point of cleanup.  From the reachable state with alice
and bob in lobby, alice's disconnect passes through the broadcast
suspension of `cleanup_room` (the `ROOM_PEER_LEFT alice` send to bob
really happens), where alice's registry status is still `lobby` while
alice is no longer in the member set — the equivalence fails. -/
theorem C4_counterexample :
    Reachable stLobby ∧
    cleanup_room_enter stLobby "alice" "lobby" = some (stLobbyMid, ["bob"]) ∧
    Act.send "bob" "ROOM_PEER_LEFT alice" ∈ (remove_peer stLobby "alice").acts ∧
    alook stLobbyMid.peers "alice" = some ⟨1, 10, some "lobby"⟩ ∧
    alook stLobbyMid.rooms "lobby" = some ["bob"] ∧
    ¬ ((∃ ms, alook stLobbyMid.rooms "lobby" = some ms ∧ "alice" ∈ ms) ↔
       (∃ p, alook stLobbyMid.peers "alice" = some p ∧
         p.status = some "lobby")) := by
  refine ⟨reachable_run Reachable.init evLobby, by decide, by decide, by decide,
    by decide, ?_⟩
  intro h
  obtain ⟨ms, hms, hmem⟩ := h.mpr ⟨⟨1, 10, some "lobby"⟩, by decide, rfl⟩
  have h2 : alook stLobbyMid.rooms "lobby" = some ["bob"] := by decide
  rw [hms] at h2
  rw [Option.some.inj h2] at hmem
  exact absurd hmem (by decide)

/-- C5.  The `ROOM_PEER_LIST` handler (signaling.py lines 119-124)
evaluates the name `peer_id` (line 120), which is bound nowhere in
`connection_handler` nor at module level, so Python raises `NameError`
before any reply: in the reachable state with alice and bob in lobby,
alice's `ROOM_PEER_LIST` frame produces no reply and crashes the
handler, after which the `finally` cleanup deregisters alice, sends
`ROOM_PEER_LEFT alice` to bob, and closes alice's connection — the
connection does not remain open and no member list is ever sent. -/
theorem C5_room_peer_list_crash :
    Reachable stLobby ∧
    handleMessage stLobby "alice" "ROOM_PEER_LIST" = ⟨stLobby, [], true⟩ ∧
    applyMsg stLobby "alice" "ROOM_PEER_LIST" =
      ⟨{ peers := [("bob", ⟨2, 20, some "lobby"⟩)], sessions := [],
         rooms := [("lobby", ["bob"])] },
       [Act.send "bob" "ROOM_PEER_LEFT alice", Act.closeConn "alice"],
       false⟩ :=
  ⟨reachable_run Reachable.init evLobby, by decide, by decide⟩

theorem aset_aset {β : Type} (l : List (String × β)) (k : String) (v v' : β) :
    aset (aset l k v) k v' = aset l k v' := by
  simp only [aset, List.filter_cons]
  have h0 : (decide ((k, v).1 ≠ k)) = false := by simp
  rw [h0]
  simp only [Bool.false_eq_true, if_false, List.filter_filter]
  congr 1
  apply List.filter_congr
  intro a ha
  exact Bool.and_self _

theorem roomJoinCommit_spec (st : ServerState) (uid rid : String) (p : Peer)
    (members : List String)
    (hreg : ∀ pid ∈ members, (alook st.peers pid).isSome = true) :
    roomJoinCommit st uid p rid members =
      ⟨{ st with peers := aset st.peers uid { p with status := some rid },
                 rooms := aset st.rooms rid (uid :: members) },
       Act.send uid ("ROOM_OK " ++ String.intercalate " " members) ::
         members.map (fun pid => Act.send pid ("ROOM_PEER_JOINED " ++ uid)),
       false⟩ := by
  have hreg' : ∀ pid ∈ members,
      (alook (aset st.peers uid { p with status := some rid }) pid).isSome =
        true := by
    intro pid hpid
    rw [alook_aset]
    by_cases hu : uid = pid
    · rw [if_pos hu]
      rfl
    · rw [if_neg hu]
      exact hreg pid hpid
  simp only [roomJoinCommit, bcast_of_regd _ members _ hreg']

/-- C6.  Room join sequence for an idle registered peer sending a frame
that dispatches and parses as `ROOM rid` with a valid room id: the
handler does not crash; the actions are exactly the `ROOM_OK` reply to
the joiner listing the members present before the join, followed by
`ROOM_PEER_JOINED` to each of those previous members; any frame sent to
the joiner itself is the `ROOM_OK` reply (never the join broadcast);
and only then does the final state show the joiner added to the member
set with status `InRoom(rid)`.  The hypotheses exclude the case the
spec itself declares a fatal internal error (joiner already a member),
and assume the existing members are registered, which is the registry
invariant `StatusOfMember` and is what the broadcast lookups at
signaling.py line 172 rely on. -/
theorem C6_room_join (st : ServerState) (uid msg rid : String) (p : Peer)
    (members : List String)
    (hp : alook st.peers uid = some p) (hst : p.status = none)
    (hS : pyStartsWith msg "SESSION" = false)
    (hR : pyStartsWith msg "ROOM" = true)
    (hparse : pySplit1 msg = ["ROOM", rid])
    (hv1 : rid ≠ "session") (hv2 : pySplit rid = [rid])
    (hmems : (alook st.rooms rid).getD [] = members)
    (hnm : uid ∉ members)
    (hreg : ∀ pid ∈ members, (alook st.peers pid).isSome = true) :
    (handleMessage st uid msg).crashed = false ∧
    (handleMessage st uid msg).acts =
      Act.send uid ("ROOM_OK " ++ String.intercalate " " members) ::
        members.map (fun pid => Act.send pid ("ROOM_PEER_JOINED " ++ uid)) ∧
    (∀ pid m, Act.send pid m ∈ (handleMessage st uid msg).acts → pid = uid →
       m = "ROOM_OK " ++ String.intercalate " " members) ∧
    alook (handleMessage st uid msg).st.rooms rid = some (uid :: members) ∧
    alook (handleMessage st uid msg).st.peers uid =
      some { p with status := some rid } := by
  have hvneg : ¬(rid = "session" ∨ pySplit rid ≠ [rid]) := by
    push_neg
    exact ⟨hv1, hv2⟩
  have hkey : handleMessage st uid msg =
      ⟨{ st with peers := aset st.peers uid { p with status := some rid },
                 rooms := aset st.rooms rid (uid :: members) },
       Act.send uid ("ROOM_OK " ++ String.intercalate " " members) ::
         members.map (fun pid => Act.send pid ("ROOM_PEER_JOINED " ++ uid)),
       false⟩ := by
    cases hrm : alook st.rooms rid with
    | some ms =>
      have hms : ms = members := by simpa [hrm] using hmems
      subst hms
      have hin : uid ∉ ms := hnm
      simp only [handleMessage, hp, hst, hS, Bool.false_eq_true, if_false, hR,
        if_true, handleRoomJoin, hparse, if_neg hvneg, hrm, if_neg hin,
        roomJoinCommit_spec st uid rid p ms hreg]
    | none =>
      have hms : members = [] := by simpa [hrm] using hmems.symm
      subst hms
      have hreg0 : ∀ pid ∈ ([] : List String),
          (alook (({ st with rooms := aset st.rooms rid [] } :
            ServerState)).peers pid).isSome = true := by
        intro pid hpid
        exact absurd hpid (List.not_mem_nil pid)
      simp only [handleMessage, hp, hst, hS, Bool.false_eq_true, if_false, hR,
        if_true, handleRoomJoin, hparse, if_neg hvneg, hrm,
        roomJoinCommit_spec _ uid rid p [] hreg0]
      simp only [aset_aset]
  rw [hkey]
  refine ⟨rfl, rfl, ?_, ?_, ?_⟩
  · intro pid m hmem hpu
    rcases List.mem_cons.mp hmem with hh | hh
    · exact (Act.send.inj hh).2
    · obtain ⟨x, hx, hxe⟩ := List.mem_map.mp hh
      have hxp : x = pid := (Act.send.inj hxe).1
      rw [hxp, hpu] at hx
      exact absurd hx hnm
  · rw [alook_aset, if_pos rfl]
  · rw [alook_aset, if_pos rfl]

/-- Witness for C6: alice joins a lobby already containing bob; the reply
is `ROOM_OK bob`, bob alone gets `ROOM_PEER_JOINED alice`, and the state
afterwards shows alice a member with status `lobby`. -/
theorem C6_room_join_witness :
    (handleMessage stBobLobby "alice" "ROOM lobby").crashed = false ∧
    (handleMessage stBobLobby "alice" "ROOM lobby").acts =
      Act.send "alice" ("ROOM_OK " ++ String.intercalate " " ["bob"]) ::
        (["bob"].map (fun pid => Act.send pid ("ROOM_PEER_JOINED " ++ "alice"))) ∧
    (∀ pid m,
       Act.send pid m ∈ (handleMessage stBobLobby "alice" "ROOM lobby").acts →
       pid = "alice" → m = "ROOM_OK " ++ String.intercalate " " ["bob"]) ∧
    alook (handleMessage stBobLobby "alice" "ROOM lobby").st.rooms "lobby" =
      some ["alice", "bob"] ∧
    alook (handleMessage stBobLobby "alice" "ROOM lobby").st.peers "alice" =
      some ⟨1, 10, some "lobby"⟩ :=
  C6_room_join stBobLobby "alice" "ROOM lobby" "lobby" ⟨1, 10, none⟩ ["bob"]
    (by decide) rfl (by decide) (by decide) (by decide) (by decide) (by decide)
    (by decide) (by decide) (by decide)

/-- C7 (amended).  Handshake characterization of `hello_peer` plus
registration: whenever the outcome is not `ok`, no peer is registered;
a two-token first frame whose first token is not `HELLO` is closed with
close code 1002 and reason `invalid protocol`; a `HELLO b` whose uid is
taken or contains whitespace is closed with 1002 and `invalid peer
uid`; a fresh clean uid gets the `HELLO` reply and is registered idle;
and a frame that does not split into two parts raises `ValueError` at
signaling.py line 182 before either `ws.close(code=1002, …)` call, so
the connection dies without the protocol-error close code (the
correction the code forces on the claim). -/
theorem C7_handshake (st : ServerState) (frame : String) (ws raddr : Nat) :
    ((∀ u, (helloPeer st.peers frame).1 ≠ .ok u) →
       (applyConnect st frame ws raddr).st = st) ∧
    (∀ a b, pySplit1 frame = [a, b] → a ≠ "HELLO" →
       helloPeer st.peers frame =
         (.closedProto "invalid protocol",
          [Act.closeCode 1002 "invalid protocol"])) ∧
    (∀ b, pySplit1 frame = ["HELLO", b] →
       ((alook st.peers b).isSome = true ∨ pySplit b ≠ [b]) →
       helloPeer st.peers frame =
         (.closedProto "invalid peer uid",
          [Act.closeCode 1002 "invalid peer uid"])) ∧
    (∀ b, pySplit1 frame = ["HELLO", b] → alook st.peers b = none →
       pySplit b = [b] →
       helloPeer st.peers frame = (.ok b, [Act.send b "HELLO"]) ∧
       applyConnect st frame ws raddr =
         ⟨{ st with peers := aset st.peers b ⟨ws, raddr, none⟩ },
          [Act.send b "HELLO"], false⟩) ∧
    ((∀ a b, pySplit1 frame ≠ [a, b]) →
       helloPeer st.peers frame = (.crashed, [])) := by
  refine ⟨?_, ?_, ?_, ?_, ?_⟩
  · intro hno
    rcases hh : helloPeer st.peers frame with ⟨outc, acts⟩
    cases outc with
    | ok u => exact absurd (congrArg Prod.fst hh) (hno u)
    | closedProto r => simp only [applyConnect, hh]
    | crashed => simp only [applyConnect, hh]
  · intro a b hsp hne
    simp only [helloPeer, hsp, if_pos hne]
  · intro b hsp hbad
    have hok : ¬("HELLO" ≠ "HELLO") := fun h => h rfl
    simp only [helloPeer, hsp, if_neg hok]
    rw [if_pos (Or.inr hbad)]
  · intro b hsp hfresh hclean
    have hok : ¬("HELLO" ≠ "HELLO") := fun h => h rfl
    have hbe : b ≠ "" := by
      intro h
      rw [h] at hclean
      exact List.noConfusion hclean
    have hcond : ¬(b = "" ∨ (alook st.peers b).isSome = true ∨
        pySplit b ≠ [b]) := by
      push_neg
      refine ⟨hbe, ?_, hclean⟩
      rw [hfresh]
      intro h
      exact Bool.noConfusion h
    constructor
    · simp only [helloPeer, hsp, if_neg hok]
      rw [if_neg hcond]
    · have hres : helloPeer st.peers frame = (.ok b, [Act.send b "HELLO"]) := by
        simp only [helloPeer, hsp, if_neg hok]
        rw [if_neg hcond]
      simp only [applyConnect, hres]
  · intro hnot
    cases hsp : pySplit1 frame with
    | nil => simp only [helloPeer, hsp]
    | cons a tl =>
      cases tl with
      | nil => simp only [helloPeer, hsp]
      | cons b tl2 =>
        cases tl2 with
        | nil => exact absurd hsp (hnot a b)
        | cons c tl3 => simp only [helloPeer, hsp]

/-- Witness for C7: the canonical handshake `HELLO alice` on the empty
registry succeeds, replies `HELLO`, and registers alice idle. -/
theorem C7_handshake_witness :
    helloPeer initState.peers "HELLO alice" =
      (.ok "alice", [Act.send "alice" "HELLO"]) ∧
    applyConnect initState "HELLO alice" 1 10 =
      ⟨{ initState with peers := aset initState.peers "alice" ⟨1, 10, none⟩ },
       [Act.send "alice" "HELLO"], false⟩ :=
  (C7_handshake initState "HELLO alice" 1 10).2.2.2.1 "alice" (by decide)
    (by decide) (by decide)

/-- Counterexample to C7 as stated: the first frame `HELLO` (well
formed in neither accepted shape: it has no uid) makes `hello.split`
unpacking raise `ValueError` at signaling.py line 182 before either
`ws.close(code=1002, …)` call runs, so the server does not close the
connection with a protocol-error close code — no close-code action is
emitted at all — although indeed no peer is registered. -/
theorem C7_counterexample :
    helloPeer initState.peers "HELLO" = (.crashed, []) ∧
    (applyConnect initState "HELLO" 1 10).st = initState ∧
    (applyConnect initState "HELLO" 1 10).acts = [] := by
  exact ⟨by decide, by decide, by decide⟩

/-- C8 (amended).  Room id validation for an idle registered peer whose
frame dispatches as a `ROOM` command: if the frame parses as
`ROOM rid` with `rid` equal to `session` or failing the single-token
check (whitespace), the server replies `ERROR invalid room id '<rid>'`,
the registries are untouched, the peer stays idle and the connection
stays open; but a `ROOM` frame with no argument at all (the empty room
id case of the claim) raises `ValueError` at signaling.py line 152 and
crashes the handler instead of replying. -/
theorem C8_room_validation (st : ServerState) (uid msg : String) (p : Peer)
    (hp : alook st.peers uid = some p) (hst : p.status = none)
    (hS : pyStartsWith msg "SESSION" = false)
    (hR : pyStartsWith msg "ROOM" = true) :
    (∀ rid, pySplit1 msg = ["ROOM", rid] →
       (rid = "session" ∨ pySplit rid ≠ [rid]) →
       handleMessage st uid msg =
         ⟨st, [Act.send uid ("ERROR invalid room id " ++ pyRepr rid)],
          false⟩) ∧
    (∀ t, pySplit1 msg = [t] → handleMessage st uid msg = ⟨st, [], true⟩) := by
  constructor
  · intro rid hsp hv
    simp only [handleMessage, hp, hst, hS, Bool.false_eq_true, if_false, hR,
      if_true, handleRoomJoin, hsp, if_pos hv, invalidRoomMsg]
  · intro t hsp
    simp only [handleMessage, hp, hst, hS, Bool.false_eq_true, if_false, hR,
      if_true, handleRoomJoin, hsp]

/-- Witness for C8: alice, idle, sends `ROOM session` and receives the
invalid-room-id error with the state untouched. -/
theorem C8_room_validation_witness :
    handleMessage stAB "alice" "ROOM session" =
      ⟨stAB, [Act.send "alice" ("ERROR invalid room id " ++ pyRepr "session")],
       false⟩ :=
  (C8_room_validation stAB "alice" "ROOM session" ⟨1, 10, none⟩ (by decide)
    rfl (by decide) (by decide)).1 "session" (by decide) (Or.inl rfl)

/-- Counterexample to C8 as stated: the claim includes the empty room
id among those answered with `ERROR invalid room id`; but the frame
`ROOM ` (empty room id) splits into a single token, the unpacking at
signaling.py line 152 raises `ValueError`, the handler crashes and the
cleanup closes alice's connection — no error reply, and the connection
does not stay open. -/
theorem C8_counterexample :
    Reachable stAB ∧
    handleMessage stAB "alice" "ROOM " = ⟨stAB, [], true⟩ ∧
    (applyMsg stAB "alice" "ROOM ").acts = [Act.closeConn "alice"] ∧
    alook (applyMsg stAB "alice" "ROOM ").st.peers "alice" = none :=
  ⟨reachable_run Reachable.init evAB, by decide, by decide, by decide⟩

/-- C9 (amended).  The busy reply is dead code.  First part: a
registered peer whose status is not idle never reaches the `SESSION`
parser — its frame is relayed (`InSession`), handled as a room command,
or crashes on the falsy-status assertion — so the claim's premise is
never satisfiable together with its conclusion.  Second part: the
`SESSION` branch runs only with the caller's `peer_status` local equal
to `None` (re-read at signaling.py line 92 and tested at line 94), and
with that value the busy test at line 137 is false, so the handler's
outcome is exactly one of: parse crash, `ERROR … not found`, or
`SESSION_OK` — never the busy reply. -/
theorem C9_busy_reply_dead (st : ServerState) (uid msg : String) (p : Peer)
    (hp : alook st.peers uid = some p) :
    (p.status ≠ none →
       handleMessage st uid msg = handleRelay st uid msg ∨
       (∃ r, p.status = some r ∧
          handleMessage st uid msg = handleRoomCmd st uid r msg) ∨
       handleMessage st uid msg = ⟨st, [], true⟩) ∧
    (handleSession st uid p none msg = ⟨st, [], true⟩ ∨
     (∃ t c, pySplit1 msg = [t, c] ∧ alook st.peers c = none ∧
        handleSession st uid p none msg =
          ⟨st, [Act.send uid (peerNotFoundMsg c)], false⟩) ∨
     (∃ t c q, pySplit1 msg = [t, c] ∧ alook st.peers c = some q ∧
        (handleSession st uid p none msg).acts = [Act.send uid "SESSION_OK"])) := by
  constructor
  · intro hs
    cases hstat : p.status with
    | none => exact absurd hstat hs
    | some r =>
      by_cases hr : r = "session"
      · left
        simp only [handleMessage, hp, hstat, if_pos hr]
      · by_cases hre : r ≠ ""
        · right
          left
          refine ⟨r, rfl, ?_⟩
          simp only [handleMessage, hp, hstat, if_neg hr, if_pos hre]
        · right
          right
          simp only [handleMessage, hp, hstat, if_neg hr, if_neg hre]
  · cases hsp : pySplit1 msg with
    | nil =>
      left
      simp only [handleSession, hsp]
    | cons t tl =>
      cases tl with
      | nil =>
        left
        simp only [handleSession, hsp]
      | cons c tl2 =>
        cases tl2 with
        | cons d tl3 =>
          left
          simp only [handleSession, hsp]
        | nil =>
          cases hc : alook st.peers c with
          | none =>
            right
            left
            refine ⟨t, c, rfl, hc, ?_⟩
            simp only [handleSession, hsp, hc]
          | some q =>
            right
            right
            refine ⟨t, c, q, rfl, hc, ?_⟩
            simp only [handleSession, hsp, hc, Option.isSome_none,
              Bool.false_eq_true, if_false]

/-- Witness for C9 at a concrete non-idle caller: alice, in session
with bob, has a registry entry with status `session`, satisfying the
theorem's hypotheses. -/
theorem C9_busy_reply_dead_witness :
    (Peer.status ⟨1, 10, some "session"⟩ ≠ none →
       handleMessage stSess "alice" "SESSION bob" =
         handleRelay stSess "alice" "SESSION bob" ∨
       (∃ r, Peer.status ⟨1, 10, some "session"⟩ = some r ∧
          handleMessage stSess "alice" "SESSION bob" =
            handleRoomCmd stSess "alice" r "SESSION bob") ∨
       handleMessage stSess "alice" "SESSION bob" = ⟨stSess, [], true⟩) ∧
    (handleSession stSess "alice" ⟨1, 10, some "session"⟩ none "SESSION bob" =
       ⟨stSess, [], true⟩ ∨
     (∃ t c, pySplit1 "SESSION bob" = [t, c] ∧ alook stSess.peers c = none ∧
        handleSession stSess "alice" ⟨1, 10, some "session"⟩ none "SESSION bob" =
          ⟨stSess, [Act.send "alice" (peerNotFoundMsg c)], false⟩) ∨
     (∃ t c q, pySplit1 "SESSION bob" = [t, c] ∧
        alook stSess.peers c = some q ∧
        (handleSession stSess "alice" ⟨1, 10, some "session"⟩ none
            "SESSION bob").acts = [Act.send "alice" "SESSION_OK"])) :=
  C9_busy_reply_dead stSess "alice" "SESSION bob" ⟨1, 10, some "session"⟩
    (by decide)

/-- Counterexample to C9 as stated: in the reachable state where alice
and bob are in a session and carol is registered and idle, alice (whose
status is not idle) sends `SESSION carol` with carol in the registry.
The claim predicts the reply `ERROR peer 'carol' busy`; the code
instead relays the literal frame to bob and sends nothing to alice, so
the busy reply is not produced — and the second conjunct of the claim,
that the reply is producible, fails on this its most direct instance. -/
theorem C9_counterexample :
    Reachable stSess3 ∧
    alook stSess3.peers "alice" = some ⟨1, 10, some "session"⟩ ∧
    (alook stSess3.peers "carol").isSome = true ∧
    applyMsg stSess3 "alice" "SESSION carol" =
      ⟨stSess3, [Act.send "bob" "SESSION carol"], false⟩ ∧
    Act.send "alice" (peerBusyMsg "carol") ∉
      (applyMsg stSess3 "alice" "SESSION carol").acts :=
  ⟨reachable_run Reachable.init evSess3, by decide, by decide, by decide,
   by decide⟩

/-- C10 (amended).  Request-error policy: for a registered peer, every
request error the code answers replies `ERROR <reason>` to the
originating peer with the registries unchanged and the connection open
— the unrecognized in-room frame, `ROOM_PEER_MSG` to an unknown peer,
`ROOM_PEER_MSG` to a known peer that is not in the sender's room
(signaling.py lines 112-115), an idle peer's `SESSION` naming an
unknown callee, and an idle peer's `ROOM` with an invalid room id
(lines 153-156) — but an unknown frame from an idle peer is silently
ignored (logged only): no `ERROR` reply is sent, correcting the
claim's `command invalid for current status` case. -/
theorem C10_request_errors (st : ServerState) (uid msg : String) (p : Peer)
    (hp : alook st.peers uid = some p) :
    (p.status = none → pyStartsWith msg "SESSION" = false →
       pyStartsWith msg "ROOM" = false →
       handleMessage st uid msg = ⟨st, [], false⟩) ∧
    (∀ r, p.status = some r → r ≠ "session" → r ≠ "" →
       pyStartsWith msg "ROOM_PEER_MSG" = false → msg ≠ "ROOM_PEER_LIST" →
       handleMessage st uid msg =
         ⟨st, [Act.send uid alreadyInRoomMsg], false⟩) ∧
    (∀ t c, p.status = none → pyStartsWith msg "SESSION" = true →
       pySplit1 msg = [t, c] → alook st.peers c = none →
       handleMessage st uid msg =
         ⟨st, [Act.send uid (peerNotFoundMsg c)], false⟩) ∧
    (∀ r t c pay, p.status = some r → r ≠ "session" → r ≠ "" →
       pyStartsWith msg "ROOM_PEER_MSG" = true → pySplit2 msg = [t, c, pay] →
       alook st.peers c = none →
       handleMessage st uid msg =
         ⟨st, [Act.send uid (peerNotFoundMsg c)], false⟩) ∧
    (∀ r t c pay q, p.status = some r → r ≠ "session" → r ≠ "" →
       pyStartsWith msg "ROOM_PEER_MSG" = true → pySplit2 msg = [t, c, pay] →
       alook st.peers c = some q → q.status ≠ some r →
       handleMessage st uid msg =
         ⟨st, [Act.send uid (peerNotInRoomMsg c)], false⟩) ∧
    (∀ t rid, p.status = none → pyStartsWith msg "SESSION" = false →
       pyStartsWith msg "ROOM" = true → pySplit1 msg = [t, rid] →
       (rid = "session" ∨ pySplit rid ≠ [rid]) →
       handleMessage st uid msg =
         ⟨st, [Act.send uid (invalidRoomMsg rid)], false⟩) := by
  refine ⟨?_, ?_, ?_, ?_, ?_, ?_⟩
  · intro hstat hS hR
    simp only [handleMessage, hp, hstat, hS, hR, Bool.false_eq_true, if_false]
  · intro r hstat hr hre hM hL
    simp only [handleMessage, hp, hstat, if_neg hr, if_pos hre, handleRoomCmd,
      hM, Bool.false_eq_true, if_false, if_neg hL]
  · intro t c hstat hS hsp hc
    simp only [handleMessage, hp, hstat, hS, if_true, handleSession, hsp, hc]
  · intro r t c pay hstat hr hre hM hsp hc
    simp only [handleMessage, hp, hstat, if_neg hr, if_pos hre, handleRoomCmd,
      hM, if_true, hsp, hc]
  · intro r t c pay q hstat hr hre hM hsp hc hq
    simp only [handleMessage, hp, hstat, if_neg hr, if_pos hre, handleRoomCmd,
      hM, if_true, hsp, hc, if_pos hq]
  · intro t rid hstat hS hR hsp hv
    simp only [handleMessage, hp, hstat, hS, Bool.false_eq_true, if_false, hR,
      if_true, handleRoomJoin, hsp, if_pos hv]

/-- Witness for C10 at concrete in-room and idle states: an
unrecognized frame while in lobby gets the already-in-room error with
the state unchanged. -/
theorem C10_request_errors_witness :
    handleMessage stLobby "alice" "WHATEVER x" =
      ⟨stLobby, [Act.send "alice" alreadyInRoomMsg], false⟩ :=
  (C10_request_errors stLobby "alice" "WHATEVER x" ⟨1, 10, some "lobby"⟩
    (by decide)).2.1 "lobby" rfl (by decide) (by decide) (by decide) (by decide)

/-- Counterexample to C10 as stated: an idle registered peer's unknown
frame (`FOO hello` — a command invalid for the idle status) is ignored
with no reply at all (signaling.py lines 176-177), while the claim
requires an `ERROR <reason>` reply to the originating peer. -/
theorem C10_counterexample :
    Reachable stAB ∧
    alook stAB.peers "alice" = some ⟨1, 10, none⟩ ∧
    applyMsg stAB "alice" "FOO hello" = ⟨stAB, [], false⟩ :=
  ⟨reachable_run Reachable.init evAB, by decide, by decide⟩

end Watney
